import Mathlib

/-!
Shallow embedding of `builder/resources.py`: the `Resource` abstraction
(`Piece` / `Project`), its slug, asset discovery, description-path
resolution, and default-description synthesis.

Filesystem model: a resource's directory is represented by the ordered list
of names of its direct children (`fs : List String`, directory-listing
order).  Paths are component lists, with `stem` / `suffix` / `parent`
following the `pathlib.PurePath` rules.
-/

namespace Resources

/-- A filesystem path, as its list of components (pathlib `parts`).
The empty list is `.`, whose `name`, `stem` and `suffix` are empty. -/
structure Path where
  components : List String
deriving DecidableEq, Repr

/-- pathlib `name`: the final component, or empty for `.`. -/
def Path.name (p : Path) : String :=
  p.components.getLast?.getD ""

/-- pathlib `parent`: drop the final component (`.` stays `.`). -/
def Path.parent (p : Path) : Path :=
  ⟨p.components.dropLast⟩

/-- pathlib `/`: append one component. -/
def Path.div (p : Path) (s : String) : Path :=
  ⟨p.components ++ [s]⟩

/-- Index of the last occurrence of a dot in a character list. -/
def rfindDot : List Char → Option Nat
  | [] => none
  | c :: cs =>
    match rfindDot cs with
    | some i => some (i + 1)
    | none => if c = '.' then some 0 else none

/-- pathlib suffix of a file name: the part from the final dot, but only
when that dot is neither the first nor the last character (so dotfiles like
`.md` and trailing-dot names have empty suffix). -/
def nameSuffix (name : String) : String :=
  match rfindDot name.data with
  | some i =>
    if 0 < i ∧ i < name.data.length - 1 then String.mk (name.data.drop i) else ""
  | none => ""

/-- pathlib stem of a file name: the name without its `nameSuffix`. -/
def nameStem (name : String) : String :=
  match rfindDot name.data with
  | some i =>
    if 0 < i ∧ i < name.data.length - 1 then String.mk (name.data.take i) else name
  | none => name

/-- pathlib `suffix` of a path. -/
def Path.suffix (p : Path) : String := nameSuffix p.name

/-- pathlib `stem` of a path. -/
def Path.stem (p : Path) : String := nameStem p.name

/-- POSIX string form of a path. -/
def Path.toString (p : Path) : String :=
  String.intercalate "/" p.components

/-- Boolean component-list prefix test. -/
def isPrefixList : List String → List String → Bool
  | [], _ => true
  | _ :: _, [] => false
  | a :: as, b :: bs => if a = b then isPrefixList as bs else false

/-- pathlib `relative_to`: strips `base` when it is a prefix of `p`;
otherwise the source raises `ValueError`, modelled as `none`. -/
def Path.relative_to (p base : Path) : Option Path :=
  if isPrefixList base.components p.components then
    some ⟨p.components.drop base.components.length⟩
  else
    none

/-- All suffixes of a character list, longest first. -/
def charTails : List Char → List (List Char)
  | [] => [[]]
  | c :: cs => (c :: cs) :: charTails cs

/-- Python `fnmatch`-style pattern match over characters: `*` matches any run
(tried as any suffix of the remaining input), `?` any single character,
anything else itself (character classes are not needed by this unit's
single glob call). -/
def fnmatchChars : List Char → List Char → Bool
  | [], cs => cs.isEmpty
  | p :: ps, cs =>
    if p = '*' then
      (charTails cs).any (fun cs2 => fnmatchChars ps cs2)
    else
      match cs with
      | [] => false
      | c :: cs2 => (if p = '?' then true else p = c) && fnmatchChars ps cs2

/-- Pattern matching of `fnmatch` on strings. -/
def fnmatch (pat name : String) : Bool :=
  fnmatchChars pat.data name.data

/-- Embedding of `path.glob(pat)`: the children whose names match `pat`, in
directory-listing order (as names). -/
def glob (fs : List String) (pat : String) : List String :=
  fs.filter (fun n => fnmatch pat n)

/-- Existence test `(path / child).exists()` against the directory listing. -/
def existsIn (fs : List String) (child : String) : Bool :=
  fs.contains child

/-- An `xml.etree` element: tag, attributes (insertion-ordered), text,
children. -/
inductive Element : Type where
  | mk : String → List (String × String) → Option String → List Element → Element

def Element.tag : Element → String
  | .mk t _ _ _ => t

def Element.text : Element → Option String
  | .mk _ _ tx _ => tx

def Element.children : Element → List Element
  | .mk _ _ _ c => c

/-- Dict-style attribute update: replace in place, else append. -/
def setAttrList : List (String × String) → String → String → List (String × String)
  | [], k, v => [(k, v)]
  | (k0, v0) :: rest, k, v =>
    if k0 = k then (k, v) :: rest else (k0, v0) :: setAttrList rest k v

/-- Embedding of `Element.set(key, value)`. -/
def Element.set : Element → String → String → Element
  | .mk t a tx c, k, v => .mk t (setAttrList a k v) tx c

/-- Embedding of `Element.insert(i, child)`. -/
def Element.insertChild : Element → Nat → Element → Element
  | .mk t a tx c, i, child => .mk t a tx (c.take i ++ child :: c.drop i)

/-- Builder `make_headline_image`: an `img` element with `src`, `alt`, and layout
class `wide` or `tall`. -/
def make_headline_image (src alt : String) (wide : Bool) : Element :=
  let img := Element.mk "img" [] none []
  let img := img.set "src" src
  let img := img.set "alt" alt
  if wide then img.set "class" "wide" else img.set "class" "tall"

/-- Modelled from the spec: the external `Document` model (module
`document`, not under `src/`) — a title, a markup body tree, and an
optional primary-image reference. -/
structure Document where
  title : String
  body : Element
  primary_image : Option Element

/-- Modelled from the spec: the external boundary functions of modules
`util` and `document` (not under `src/`): `sluggify` (a pure normalization
of text to an identifier), `is_wide` (a pure layout classification of an
image path), and `Document.load_file` (the loader producing a `Document`
from a description file).  The spec fixes only that they are pure, so the
development is parameterized over them. -/
structure Env where
  sluggify : String → String
  is_wide : Path → Bool
  load_file : Path → Document

/-- Success shape of `ET.fromstring` on the slug-interpolated body template
`<html><section><h1>{slug}</h1></section></html>`: an `html` root holding a
`section` holding an `h1` whose text is the slug.  This total tree is the
abstraction used by `Resource.generate_description`, adequate for the
claims about branching and asset selection; the parser's partiality and
character-data handling are modelled separately by `fromstring_checked`,
and `parseCharData_template_eq` relates the two on plain, non-empty
slugs. -/
def fromstring_template (slug : String) : Element :=
  .mk "html" [] none [.mk "section" [] none [.mk "h1" [] (some slug) []]]

/-- The concrete resource kinds `Piece` and `Project`, which differ only in
their `DIRECTORY` class constant. -/
inductive Kind where
  | piece
  | project
deriving DecidableEq, Repr

/-- The per-kind output-directory tag (`pieces/`, `projects/`). -/
def Kind.DIRECTORY : Kind → Path
  | .piece => ⟨["pieces"]⟩
  | .project => ⟨["projects"]⟩

/-- A constructed `Resource`: its kind tag, content directory, slug, and
the explicit description path stored by `__post_init__`. -/
structure Resource where
  kind : Kind
  path : Path
  slug : String
  _description_path : Option Path
deriving DecidableEq, Repr

/-- Dataclass construction plus `__post_init__`: a falsy `slug` (absent or
empty) is replaced by `sluggify(path.stem)`; a supplied `description_path`
is stored in `_description_path`. -/
def Resource.make (sluggify : String → String) (kind : Kind) (path : Path)
    (slug : Option String) (description_path : Option Path) : Resource :=
  let s := slug.getD ""
  ⟨kind, path, if s = "" then sluggify path.stem else s, description_path⟩

/-- Factory `Resource.from_path`: a `.md` / `.html` file is taken as the explicit
description file of its parent directory; anything else is taken as the
content directory itself. -/
def Resource.from_path (sluggify : String → String) (kind : Kind) (path : Path) :
    Resource :=
  if path.suffix = ".md" ∨ path.suffix = ".html" then
    Resource.make sluggify kind path.parent none (some path)
  else
    Resource.make sluggify kind path none none

/-- Derived `Resource.assets`: the direct children of `path` whose suffix is not
`.md`, `.html`, or empty, in directory-listing order. -/
def Resource.assets (fs : List String) (r : Resource) : List Path :=
  (fs.map r.path.div).filter
    (fun p => !(p.suffix = ".md" ∨ p.suffix = ".html" ∨ p.suffix = "" : Bool))

/-- One `functools.cached_property` access of `assets`: given the cache
cell, returns the value, the new cache cell, and how many directory scans
the access performed. -/
def Resource.assets_cached (fs : List String) (r : Resource)
    (cache : Option (List Path)) : List Path × Option (List Path) × Nat :=
  match cache with
  | some v => (v, some v, 0)
  | none =>
    let v := Resource.assets fs r
    (v, some v, 1)

/-- Derived `Resource.description_path`: `index.md`, else `{slug}.md`, else the
first `glob('.md')` hit, else `None`.  Note it never reads
`_description_path`. -/
def Resource.description_path (fs : List String) (r : Resource) : Option Path :=
  if existsIn fs "index.md" then some (r.path.div "index.md")
  else if existsIn fs (r.slug ++ ".md") then some (r.path.div (r.slug ++ ".md"))
  else
    match (glob fs ".md").head? with
    | some n => some (r.path.div n)
    | none => none

/-- Synthesis `Resource._generate_description`: body from the template; if assets
exist, pick the first whose sluggified stem equals the slug (else the first
asset), build the headline image, and insert it in a `div.headline` as the
first child.  The fallible steps (`assets[0]`, `relative_to`) are modelled
in `Option`; the `ET.fromstring` call is abstracted by its success tree
`fromstring_template` (see `Resource.generate_description_checked` for the
variant that models the parser's error path and character-data
handling). -/
def Resource.generate_description (env : Env) (fs : List String) (r : Resource) :
    Option Document :=
  let body := fromstring_template r.slug
  let as := Resource.assets fs r
  if as.isEmpty then
    some ⟨r.slug, body, none⟩
  else
    match as.head? with
    | none => none
    | some first =>
      let path := (as.find? (fun p => env.sluggify p.stem == r.slug)).getD first
      match Path.relative_to path r.path with
      | none => none
      | some rel =>
        let img := make_headline_image rel.toString path.stem (env.is_wide path)
        let div := Element.mk "div" [("class", "headline")] none [img]
        some ⟨r.slug, body.insertChild 0 div, some img⟩

/-- The debug log record emitted on the synthesis branch, parameterized by
the kind's `DIRECTORY` tag and the slug. -/
structure LogEntry where
  directory : Path
  slug : String
deriving DecidableEq, Repr

/-- Derived `Resource.description`: synthesize (with one debug log entry) when
`description_path` is falsy, otherwise load from the derived path. -/
def Resource.description (env : Env) (fs : List String) (r : Resource) :
    Option (Document × List LogEntry) :=
  match Resource.description_path fs r with
  | none =>
    (Resource.generate_description env fs r).map
      (fun d => (d, [⟨r.kind.DIRECTORY, r.slug⟩]))
  | some p => some (env.load_file p, [])

/-- Modelled from the spec: a concrete instance of the external boundary,
used only to witness theorems at concrete inputs.  `sluggify` is lowercase
normalization (pure, idempotent, and non-empty on non-empty stems, as the
spec's invariant requires); `is_wide` and `load_file` are arbitrary pure
choices. -/
def env0 : Env :=
  ⟨fun s => String.mk (s.data.map Char.toLower), fun _ => false,
   fun p => ⟨p.toString, .mk "html" [] none [], none⟩⟩

/-- Valid XML 1.0 document characters: tab, line feed, carriage return,
and the non-surrogate scalar values from `U+0020` on, excluding
`U+FFFE`/`U+FFFF`.  The parser rejects character data containing anything
else. -/
def xmlValidChar (c : Char) : Bool :=
  c.toNat = 9 || c.toNat = 10 || c.toNat = 13
    || (32 ≤ c.toNat && c.toNat ≤ 55295)
    || (57344 ≤ c.toNat && c.toNat ≤ 65533)
    || (65536 ≤ c.toNat && c.toNat ≤ 1114111)

/-- Slugs whose interpolation into the body template is parsed back
unchanged as character data: only valid XML characters, no markup opener
`<`, no reference opener `&`, no carriage return (which the parser
normalizes to a line feed), and no `]]>` sequence (which the parser
rejects). -/
def xmlPlain : List Char → Bool
  | [] => true
  | c :: rest =>
    if c = '<' ∨ c = '&' ∨ c = '\r' then false
    else if c = ']' ∧ rest.take 2 = [']', '>'] then false
    else xmlValidChar c && xmlPlain rest

/-- Character-data parse of the interpolated slug inside the `h1` element,
as the stdlib XML parser treats it (verified against
`xml.etree.ElementTree.fromstring`): the five predefined entity references
are unescaped and any other use of `&` is a parse error, `]]>` and invalid
characters are parse errors, and a carriage return (or the pair CR LF) is
normalized to a line feed.  A `<` opens markup instead of character data
and is mapped to failure, which is faithful except for a slug spelling out
a complete balanced XML fragment (the real parser then succeeds with extra
child elements); numeric character references are likewise mapped to
failure.  No theorem below depends on those two cases. -/
def parseCharData : List Char → Option (List Char)
  | [] => some []
  | c :: rest =>
    if c = '<' then none
    else if c = '&' then
      match rest with
      | 'a' :: 'm' :: 'p' :: ';' :: rest2 => (parseCharData rest2).map (fun cs => '&' :: cs)
      | 'l' :: 't' :: ';' :: rest2 => (parseCharData rest2).map (fun cs => '<' :: cs)
      | 'g' :: 't' :: ';' :: rest2 => (parseCharData rest2).map (fun cs => '>' :: cs)
      | 'q' :: 'u' :: 'o' :: 't' :: ';' :: rest2 =>
        (parseCharData rest2).map (fun cs => '"' :: cs)
      | 'a' :: 'p' :: 'o' :: 's' :: ';' :: rest2 =>
        (parseCharData rest2).map (fun cs => Char.ofNat 39 :: cs)
      | _ => none
    else if c = '\r' then
      match rest with
      | '\n' :: rest2 => (parseCharData rest2).map (fun cs => '\n' :: cs)
      | rest3 => (parseCharData rest3).map (fun cs => '\n' :: cs)
    else if c = ']' ∧ rest.take 2 = [']', '>'] then none
    else if xmlValidChar c then (parseCharData rest).map (fun cs => c :: cs)
    else none

/-- Outcome of `ET.fromstring` on the slug-interpolated body template with
the parser modelled by `parseCharData`: failure where the parser raises
`ParseError`, and otherwise the template tree whose `h1` text is the
parsed character data — `None` (absent) when that data is empty, as the
parser leaves the text of an empty element unset. -/
def fromstring_checked (slug : String) : Option Element :=
  (parseCharData slug.data).map (fun text =>
    .mk "html" [] none
      [.mk "section" [] none
        [.mk "h1" [] (if text.isEmpty then none else some (String.mk text)) []]])

/-- Synthesis `Resource._generate_description` with the `ET.fromstring`
step modelled faithfully by `fromstring_checked`: a slug whose
interpolation does not parse makes the whole synthesis raise (yield no
`Document`); otherwise the computation proceeds exactly as in
`Resource.generate_description`. -/
def Resource.generate_description_checked (env : Env) (fs : List String) (r : Resource) :
    Option Document :=
  match fromstring_checked r.slug with
  | none => none
  | some body =>
    let as := Resource.assets fs r
    if as.isEmpty then
      some ⟨r.slug, body, none⟩
    else
      match as.head? with
      | none => none
      | some first =>
        let path := (as.find? (fun p => env.sluggify p.stem == r.slug)).getD first
        match Path.relative_to path r.path with
        | none => none
        | some rel =>
          let img := make_headline_image rel.toString path.stem (env.is_wide path)
          let div := Element.mk "div" [("class", "headline")] none [img]
          some ⟨r.slug, body.insertChild 0 div, some img⟩

/-- Derived `Resource.description` with the synthesis branch modelled by
`Resource.generate_description_checked` (the load branch is unchanged). -/
def Resource.description_checked (env : Env) (fs : List String) (r : Resource) :
    Option (Document × List LogEntry) :=
  match Resource.description_path fs r with
  | none =>
    (Resource.generate_description_checked env fs r).map
      (fun d => (d, [⟨r.kind.DIRECTORY, r.slug⟩]))
  | some p => some (env.load_file p, [])

/-! ### Helper lemmas -/

theorem rfindDot_append_md (xs : List Char) :
    rfindDot (xs ++ ['.', 'm', 'd']) = some xs.length := by
  induction xs with
  | nil => rfl
  | cons c cs ih => simp [rfindDot, ih]

theorem data_eq_nil_iff (s : String) : s.data = [] ↔ s = "" := by
  constructor
  · intro h
    exact String.ext (h.trans rfl)
  · intro h
    subst h
    rfl

theorem nameSuffix_append_md (s : String) :
    nameSuffix (s ++ ".md") = if s = "" then "" else ".md" := by
  by_cases hs : s = ""
  · subst hs
    decide
  · rw [if_neg hs]
    unfold nameSuffix
    rw [show (s ++ ".md").data = s.data ++ ['.', 'm', 'd'] from String.data_append s ".md"]
    rw [rfindDot_append_md]
    have hcond : 0 < s.data.length ∧
        s.data.length < (s.data ++ ['.', 'm', 'd']).length - 1 := by
      refine ⟨List.length_pos.mpr (fun h => hs ((data_eq_nil_iff s).mp h)), ?_⟩
      simp only [List.length_append, List.length_cons, List.length_nil]
      omega
    show (if 0 < s.data.length ∧ s.data.length < (s.data ++ ['.', 'm', 'd']).length - 1
        then String.mk ((s.data ++ ['.', 'm', 'd']).drop s.data.length) else "") = ".md"
    rw [if_pos hcond, List.drop_left]

theorem fnmatchChars_literal (ps : List Char) (h : ∀ c ∈ ps, c ≠ '*' ∧ c ≠ '?') :
    ∀ cs, (fnmatchChars ps cs = true ↔ ps = cs) := by
  induction ps with
  | nil =>
    intro cs
    cases cs <;> simp [fnmatchChars]
  | cons p ps ih =>
    intro cs
    obtain ⟨hstar, hq⟩ := h p (List.mem_cons_self p ps)
    have hrest : ∀ c ∈ ps, c ≠ '*' ∧ c ≠ '?' := fun c hc => h c (List.mem_cons_of_mem p hc)
    cases cs with
    | nil => simp [fnmatchChars, if_neg hstar]
    | cons c cs2 =>
      simp only [fnmatchChars, if_neg hstar, if_neg hq]
      simp [Bool.and_eq_true, decide_eq_true_eq, ih hrest cs2, List.cons.injEq]

theorem fnmatch_md_iff (n : String) : fnmatch ".md" n = true ↔ n = ".md" := by
  unfold fnmatch
  rw [fnmatchChars_literal ['.', 'm', 'd'] (by decide) n.data]
  constructor
  · intro h
    exact String.ext h.symm
  · intro h
    subst h
    rfl

theorem glob_md_head (fs : List String) :
    (glob fs ".md").head? = if ".md" ∈ fs then some ".md" else none := by
  induction fs with
  | nil => rfl
  | cons n rest ih =>
    by_cases hn : n = ".md"
    · subst hn
      have ht : fnmatch ".md" ".md" = true := (fnmatch_md_iff ".md").mpr rfl
      simp [glob, List.filter_cons, ht]
    · have hf : fnmatch ".md" n = false := by
        cases h : fnmatch ".md" n
        · rfl
        · exact absurd ((fnmatch_md_iff n).mp h) hn
      rw [show glob (n :: rest) ".md" = glob rest ".md" by simp [glob, List.filter_cons, hf]]
      rw [ih]
      by_cases h3 : ".md" ∈ rest
      · rw [if_pos h3, if_pos (List.mem_cons_of_mem n h3)]
      · rw [if_neg h3, if_neg (by simp [List.mem_cons, Ne.symm hn, h3])]

theorem name_div (p : Path) (n : String) : (Path.div p n).name = n := by
  unfold Path.div Path.name
  simp [List.getLast?_concat]

theorem suffix_div (p : Path) (n : String) : (Path.div p n).suffix = nameSuffix n := by
  unfold Path.suffix
  rw [name_div]

theorem stem_div (p : Path) (n : String) : (Path.div p n).stem = nameStem n := by
  unfold Path.stem
  rw [name_div]

theorem description_path_suffix (fs : List String) (r : Resource) (p : Path)
    (h : Resource.description_path fs r = some p) :
    p.suffix = ".md" ∨ p.suffix = "" := by
  unfold Resource.description_path at h
  by_cases h1 : existsIn fs "index.md"
  · rw [if_pos h1] at h
    obtain rfl := Option.some.inj h
    left
    rw [suffix_div]
    decide
  · rw [if_neg h1] at h
    by_cases h2 : existsIn fs (r.slug ++ ".md")
    · rw [if_pos h2] at h
      obtain rfl := Option.some.inj h
      rw [suffix_div, nameSuffix_append_md]
      by_cases hs : r.slug = ""
      · right
        rw [if_pos hs]
      · left
        rw [if_neg hs]
    · rw [if_neg h2, glob_md_head] at h
      by_cases h3 : ".md" ∈ fs
      · rw [if_pos h3] at h
        obtain rfl := Option.some.inj h
        right
        rw [suffix_div]
        decide
      · rw [if_neg h3] at h
        exact absurd h (by simp)

theorem existsIn_iff (fs : List String) (x : String) : existsIn fs x = true ↔ x ∈ fs := by
  show fs.elem x = true ↔ x ∈ fs
  exact List.elem_iff

theorem mk_data (s : String) : String.mk s.data = s := by
  cases s
  rfl

theorem parseCharData_xmlPlain : ∀ cs, xmlPlain cs = true → parseCharData cs = some cs := by
  intro cs
  induction cs with
  | nil => intro h; rfl
  | cons c rest ih =>
    intro h
    rw [xmlPlain] at h
    unfold parseCharData
    by_cases h1 : c = '<' ∨ c = '&' ∨ c = '\r'
    · rw [if_pos h1] at h
      exact absurd h (by decide)
    · rw [if_neg h1] at h
      have hlt : ¬ c = '<' := fun hc => h1 (Or.inl hc)
      have hamp : ¬ c = '&' := fun hc => h1 (Or.inr (Or.inl hc))
      have hcr : ¬ c = '\r' := fun hc => h1 (Or.inr (Or.inr hc))
      rw [if_neg hlt, if_neg hamp, if_neg hcr]
      by_cases h2 : c = ']' ∧ rest.take 2 = [']', '>']
      · rw [if_pos h2] at h
        exact absurd h (by decide)
      · rw [if_neg h2] at h
        rw [if_neg h2]
        rw [Bool.and_eq_true] at h
        rw [if_pos h.1, ih h.2]
        rfl

theorem parseCharData_template_eq (slug : String) (h : xmlPlain slug.data = true)
    (hne : slug ≠ "") :
    fromstring_checked slug = some (fromstring_template slug) := by
  unfold fromstring_checked fromstring_template
  rw [parseCharData_xmlPlain slug.data h]
  have hne2 : ¬ slug.data = [] := fun hnil => hne ((data_eq_nil_iff slug).mp hnil)
  simp [hne2, mk_data]

/-- C1: `description_path` is computed only from the directory's contents:
its value (and the value of `description`) is unchanged under any change of
the explicit description path supplied at construction, and it never equals
an explicit `.html` description-file path such as one supplied via
`from_path`. -/
theorem description_path_ignores_explicit (env : Env) (fs : List String)
    (r : Resource) (d1 d2 : Option Path) (q : Path) (hq : q.suffix = ".html") :
    Resource.description_path fs ⟨r.kind, r.path, r.slug, d1⟩ =
      Resource.description_path fs ⟨r.kind, r.path, r.slug, d2⟩
    ∧ Resource.description env fs ⟨r.kind, r.path, r.slug, d1⟩ =
      Resource.description env fs ⟨r.kind, r.path, r.slug, d2⟩
    ∧ Resource.description_path fs r ≠ some q := by
  refine ⟨rfl, rfl, ?_⟩
  intro hcontra
  rcases description_path_suffix fs r q hcontra with h | h <;>
    rw [hq] at h <;> exact absurd h (by decide)

theorem description_path_ignores_explicit_witness :
    Resource.description_path ["index.md"] ⟨Kind.piece, ⟨["c"]⟩, "c", none⟩ =
      Resource.description_path ["index.md"]
        ⟨Kind.piece, ⟨["c"]⟩, "c", some ⟨["c", "about.html"]⟩⟩
    ∧ Resource.description env0 ["index.md"] ⟨Kind.piece, ⟨["c"]⟩, "c", none⟩ =
      Resource.description env0 ["index.md"]
        ⟨Kind.piece, ⟨["c"]⟩, "c", some ⟨["c", "about.html"]⟩⟩
    ∧ Resource.description_path ["index.md"] ⟨Kind.piece, ⟨["c"]⟩, "c", none⟩ ≠
      some ⟨["c", "about.html"]⟩ :=
  description_path_ignores_explicit env0 ["index.md"] ⟨Kind.piece, ⟨["c"]⟩, "c", none⟩
    none (some ⟨["c", "about.html"]⟩) ⟨["c", "about.html"]⟩ (by decide)

/-- C2: `description_path` resolves, first match winning, to
`path/index.md` if present, else `path/{slug}.md` if present, else the
first entry matching the literal glob pattern `.md` — which matches only a
file named exactly `.md` — else no value. -/
theorem description_path_resolution_order (fs : List String) (r : Resource) :
    (Resource.description_path fs r =
      if "index.md" ∈ fs then some (r.path.div "index.md")
      else if (r.slug ++ ".md") ∈ fs then some (r.path.div (r.slug ++ ".md"))
      else if ".md" ∈ fs then some (r.path.div ".md")
      else none)
    ∧ ∀ n : String, fnmatch ".md" n = true ↔ n = ".md" := by
  refine ⟨?_, fnmatch_md_iff⟩
  unfold Resource.description_path
  rw [glob_md_head]
  by_cases h1 : "index.md" ∈ fs
  · rw [if_pos ((existsIn_iff fs "index.md").mpr h1), if_pos h1]
  · rw [if_neg (fun hc => h1 ((existsIn_iff fs "index.md").mp hc)), if_neg h1]
    by_cases h2 : (r.slug ++ ".md") ∈ fs
    · rw [if_pos ((existsIn_iff fs (r.slug ++ ".md")).mpr h2), if_pos h2]
    · rw [if_neg (fun hc => h2 ((existsIn_iff fs (r.slug ++ ".md")).mp hc)), if_neg h2]
      by_cases h3 : ".md" ∈ fs
      · rw [if_pos h3, if_pos h3]
      · rw [if_neg h3, if_neg h3]

/-- C8 counterexample: a slug supplied explicitly as the empty string is
not preserved — `__post_init__` treats any falsy slug as missing and
replaces it with `sluggify(path.stem)`. -/
theorem slug_empty_supplied_not_preserved :
    (Resource.make env0.sluggify Kind.piece ⟨["Piece1"]⟩ (some "") none).slug ≠ "" := by
  decide

/-- C8 (amended): `slug` is `sluggify(path.stem)` when not supplied or
supplied as the empty string, and is exactly the supplied value when a
non-empty slug is supplied. -/
theorem slug_defaulting (slugf : String → String) (kind : Kind) (path : Path)
    (descr : Option Path) (s : String) (hs : s ≠ "") :
    (Resource.make slugf kind path none descr).slug = slugf path.stem
    ∧ (Resource.make slugf kind path (some "") descr).slug = slugf path.stem
    ∧ (Resource.make slugf kind path (some s) descr).slug = s := by
  refine ⟨rfl, rfl, ?_⟩
  show (if s = "" then slugf path.stem else s) = s
  rw [if_neg hs]

theorem slug_defaulting_witness :
    (Resource.make env0.sluggify Kind.piece ⟨["Piece1"]⟩ none none).slug =
      env0.sluggify (Path.stem ⟨["Piece1"]⟩)
    ∧ (Resource.make env0.sluggify Kind.piece ⟨["Piece1"]⟩ (some "") none).slug =
      env0.sluggify (Path.stem ⟨["Piece1"]⟩)
    ∧ (Resource.make env0.sluggify Kind.piece ⟨["Piece1"]⟩ (some "art") none).slug = "art" :=
  slug_defaulting env0.sluggify Kind.piece ⟨["Piece1"]⟩ none "art" (by decide)

/-- C9: `from_path` on a `.md` / `.html` file yields the file's parent as
the resource directory with the file as explicit description path; on any
other path it yields that path as the directory with no explicit
description path. -/
theorem from_path_cases (slugf : String → String) (kind : Kind) (p : Path) :
    ((p.suffix = ".md" ∨ p.suffix = ".html") →
      (Resource.from_path slugf kind p).path = p.parent ∧
      (Resource.from_path slugf kind p)._description_path = some p)
    ∧ (¬(p.suffix = ".md" ∨ p.suffix = ".html") →
      (Resource.from_path slugf kind p).path = p ∧
      (Resource.from_path slugf kind p)._description_path = none) := by
  constructor
  · intro h
    unfold Resource.from_path
    rw [if_pos h]
    exact ⟨rfl, rfl⟩
  · intro h
    unfold Resource.from_path
    rw [if_neg h]
    exact ⟨rfl, rfl⟩

theorem from_path_cases_witness :
    ((Resource.from_path env0.sluggify Kind.piece ⟨["c", "about.html"]⟩).path = ⟨["c"]⟩
      ∧ (Resource.from_path env0.sluggify Kind.piece ⟨["c", "about.html"]⟩)._description_path =
        some ⟨["c", "about.html"]⟩)
    ∧ ((Resource.from_path env0.sluggify Kind.project ⟨["c", "Art"]⟩).path = ⟨["c", "Art"]⟩
      ∧ (Resource.from_path env0.sluggify Kind.project ⟨["c", "Art"]⟩)._description_path =
        none) :=
  ⟨(from_path_cases env0.sluggify Kind.piece ⟨["c", "about.html"]⟩).1 (by decide),
   (from_path_cases env0.sluggify Kind.project ⟨["c", "Art"]⟩).2 (by decide)⟩

/-- C10: for a description-file input (`.md` / `.html`), the slug of the
`from_path` resource is derived from the containing directory's name,
`sluggify(p.parent.stem)`, never from the file's own name. -/
theorem from_path_slug_from_parent (slugf : String → String) (kind : Kind) (p : Path)
    (h : p.suffix = ".md" ∨ p.suffix = ".html") :
    (Resource.from_path slugf kind p).slug = slugf p.parent.stem := by
  unfold Resource.from_path
  rw [if_pos h]
  rfl

theorem from_path_slug_from_parent_witness :
    (Resource.from_path env0.sluggify Kind.piece ⟨["c", "Art", "index.md"]⟩).slug =
      env0.sluggify (Path.stem (Path.parent ⟨["c", "Art", "index.md"]⟩)) :=
  from_path_slug_from_parent env0.sluggify Kind.piece ⟨["c", "Art", "index.md"]⟩ (by decide)

/-- C6 counterexample: the synthesized heading text need not equal the
slug — for slug `a&amp;b` with no description file and no assets, the
parser unescapes the entity reference, so the yielded body's heading text
is `a&b`, which differs from the slug. -/
theorem description_heading_entity_mismatch :
    Resource.description_checked env0 [] ⟨Kind.piece, ⟨["Art"]⟩, "a&amp;b", none⟩ =
      some (⟨"a&amp;b",
          Element.mk "html" [] none
            [Element.mk "section" [] none [Element.mk "h1" [] (some "a&b") []]],
          none⟩,
        [⟨Kind.piece.DIRECTORY, "a&amp;b"⟩])
    ∧ ("a&b" : String) ≠ "a&amp;b" :=
  ⟨rfl, by decide⟩

/-- C6 (amended): for a resource whose slug is plain character data under
interpolation, with no description file and no assets, `description`
synthesizes a `Document` whose body is exactly the heading tree — the `h1`
text is the slug, and is absent for the empty slug — with no primary
image. -/
theorem empty_directory_description_checked (env : Env) (fs : List String) (r : Resource)
    (hpath : Resource.description_path fs r = none)
    (hassets : Resource.assets fs r = [])
    (hplain : xmlPlain r.slug.data = true) :
    Resource.description_checked env fs r =
      some (⟨r.slug,
          Element.mk "html" [] none
            [Element.mk "section" [] none
              [Element.mk "h1" [] (if r.slug = "" then none else some r.slug) []]],
          none⟩,
        [⟨r.kind.DIRECTORY, r.slug⟩]) := by
  have hp : parseCharData r.slug.data = some r.slug.data := parseCharData_xmlPlain _ hplain
  unfold Resource.description_checked
  rw [hpath]
  unfold Resource.generate_description_checked fromstring_checked
  rw [hp]
  by_cases hs : r.slug = ""
  · have hd : r.slug.data.isEmpty = true := by
      rw [hs]
      rfl
    simp [hassets, hd, hs]
  · have hne2 : ¬ r.slug.data = [] := fun hnil => hs ((data_eq_nil_iff r.slug).mp hnil)
    simp [hassets, hne2, hs, mk_data]

theorem empty_directory_description_checked_witness :
    Resource.description_checked env0 [] ⟨Kind.piece, ⟨["Art"]⟩, "art", none⟩ =
      some (⟨"art",
          Element.mk "html" [] none
            [Element.mk "section" [] none [Element.mk "h1" [] (some "art") []]],
          none⟩,
        [⟨Kind.piece.DIRECTORY, "art"⟩]) :=
  empty_directory_description_checked env0 [] ⟨Kind.piece, ⟨["Art"]⟩, "art", none⟩
    (by decide) rfl (by decide)

/-- C7: `assets` is exactly the direct children of `path` whose suffix is
not `.md`, `.html`, or empty, in directory-listing order; a first cached
access scans once and stores the list, and a repeated access returns the
same cached list with no further scan. -/
theorem assets_characterization_and_cache (fs : List String) (r : Resource) :
    Resource.assets fs r =
      (fs.filter fun n =>
        !(nameSuffix n = ".md" ∨ nameSuffix n = ".html" ∨ nameSuffix n = "" : Bool)).map
        r.path.div
    ∧ Resource.assets_cached fs r none =
      (Resource.assets fs r, some (Resource.assets fs r), 1)
    ∧ Resource.assets_cached fs r (some (Resource.assets fs r)) =
      (Resource.assets fs r, some (Resource.assets fs r), 0) := by
  refine ⟨?_, rfl, rfl⟩
  unfold Resource.assets
  rw [List.filter_map]
  have hfun : ((fun p => !(p.suffix = ".md" ∨ p.suffix = ".html" ∨ p.suffix = "" : Bool))
      ∘ r.path.div) =
      fun n => !(nameSuffix n = ".md" ∨ nameSuffix n = ".html" ∨ nameSuffix n = "" : Bool) := by
    funext n
    show (!((r.path.div n).suffix = ".md" ∨ (r.path.div n).suffix = ".html"
        ∨ (r.path.div n).suffix = "" : Bool)) = _
    exact congrArg (fun b => !b) (decide_eq_decide.mpr (by rw [suffix_div]))
  rw [hfun]

end Resources
